import Mathlib

/-!
Verification of the `translate-gherkin` keyword translator.

This file gives a shallow embedding of the translator core
(`GherkinTranslator` in the repository's main module) and proves the
specification's claims about it.  Pure JavaScript string/array operations
are embedded as Lean functions over `String`/`List`; the external parser,
AST walker and dialect table (npm dependencies `@cucumber/gherkin` and
`@cucumber/gherkin-utils`) are modelled from the specification at their
interface boundary, as noted on each such definition.
-/

set_option maxHeartbeats 1000000

/-! ## JavaScript primitives -/

/-- Character class of the JavaScript regular-expression escape `\s`
(ECMA-262 WhiteSpace and LineTerminator code points), given by code point. -/
def isJsSpace (c : Char) : Bool :=
  let n := c.toNat
  n == 0x20 || n == 0x09 || n == 0x0A || n == 0x0B || n == 0x0C || n == 0x0D ||
  n == 0xA0 || n == 0x1680 || (0x2000 ≤ n && n ≤ 0x200A) ||
  n == 0x2028 || n == 0x2029 || n == 0x202F || n == 0x205F ||
  n == 0x3000 || n == 0xFEFF

/-- Character class of the JavaScript regular-expression escape `\w`,
i.e. `[A-Za-z0-9_]`. -/
def isJsWordChar (c : Char) : Bool :=
  let n := c.toNat
  (0x41 ≤ n && n ≤ 0x5A) || (0x61 ≤ n && n ≤ 0x7A) ||
  (0x30 ≤ n && n ≤ 0x39) || n == 0x5F

/-- Replacement of the first occurrence of `pat` in a character list by
`repl`, the semantics of JavaScript `String.prototype.replace` with a plain
string pattern.  (Dollar escapes in the replacement string are not modelled;
no Gherkin keyword contains `$`.) -/
def replaceFirstList (l pat repl : List Char) : List Char :=
  match l with
  | [] => if pat.isEmpty then repl else []
  | c :: cs =>
    if pat.isPrefixOf (c :: cs) then repl ++ (c :: cs).drop pat.length
    else c :: replaceFirstList cs pat repl

/-- JavaScript `source.replace(pat, repl)` for string `pat`: replaces the
first occurrence only. -/
def jsReplace (s pat repl : String) : String :=
  ⟨replaceFirstList s.data pat.data repl.data⟩

/-- JavaScript `Array.prototype.indexOf` restricted to string arrays:
the index of the first element equal to `a`, as an `Option`. -/
def jsIndexOfNat (a : String) : List String → Option Nat
  | [] => none
  | x :: xs => if x == a then some 0 else (jsIndexOfNat a xs).map (· + 1)

/-- JavaScript `Array.prototype.indexOf`: first index of `a`, or `-1`. -/
def jsIndexOf (a : String) (l : List String) : Int :=
  match jsIndexOfNat a l with
  | none => -1
  | some n => n

/-- JavaScript indexed access `l[i]` on a string array: `undefined` (here
`none`) for negative or out-of-range indices. -/
def jsGetElem (l : List String) (i : Int) : Option String :=
  if i < 0 then none else l.get? i.toNat

/-- JavaScript `source.split("\n")`: splits on every newline; the result is
never empty (splitting the empty string yields `[""]`). -/
def jsSplitNewlineAux : List Char → List Char → List String
  | [], acc => [⟨acc.reverse⟩]
  | c :: cs, acc =>
    if c = '\n' then ⟨acc.reverse⟩ :: jsSplitNewlineAux cs []
    else jsSplitNewlineAux cs (c :: acc)

/-- JavaScript `source.split("\n")`. -/
def jsSplitNewline (s : String) : List String :=
  jsSplitNewlineAux s.data []

/-- JavaScript `lines.join("\n")`. -/
def joinNl : List String → String
  | [] => ""
  | [s] => s
  | s :: s' :: rest => s ++ "\n" ++ joinNl (s' :: rest)

/-! ## Data model

The dialect table of `@cucumber/gherkin` is an external collaborator.  A
dialect object maps keyword types to arrays of surface keywords and also
carries the string fields `name` and `native`; `translateKeyword` filters
the object's entries with `Array.isArray`, which keeps exactly the keyword
lists, so the embedding stores the array-valued entries (in the object's
insertion order, which the iteration order of `Object.entries` follows) in
`entries` and the `name` string separately. -/

structure Dialect where
  name : String
  entries : List (String × List String)
deriving DecidableEq

/-- Modelled from the spec: the dialect table is "an immutable, statically
known mapping from language code → dialect definition" supplied by an
external localization collaborator; a dialect "maps a keyword-type (e.g.
`feature`, `scenario`, `given`, `when`, `then`, `and`, `but`, `background`,
`rule`, `examples`, `scenarioOutline`) to an ordered list of acceptable
surface keywords in that language, plus a human-readable dialect name".
This is the English dialect definition of that table (the library's
default dialect), with entries listed in the collaborator's iteration
order. -/
def enDialect : Dialect :=
  { name := "English"
    entries :=
      [ ("and", ["* ", "And "]),
        ("background", ["Background"]),
        ("but", ["* ", "But "]),
        ("examples", ["Examples", "Scenarios"]),
        ("feature", ["Feature", "Business Need", "Ability"]),
        ("given", ["* ", "Given "]),
        ("rule", ["Rule"]),
        ("scenario", ["Example", "Scenario"]),
        ("scenarioOutline", ["Scenario Outline", "Scenario Template"]),
        ("then", ["* ", "Then "]),
        ("when", ["* ", "When "]) ] }

/-- Modelled from the spec: the German dialect definition of the external
dialect table (the spec's concrete scenarios use the German keywords
`Funktionalität`, `Szenario` and `Angenommen `). -/
def deDialect : Dialect :=
  { name := "German"
    entries :=
      [ ("and", ["* ", "Und "]),
        ("background", ["Grundlage", "Hintergrund", "Voraussetzungen", "Vorbedingungen"]),
        ("but", ["* ", "Aber "]),
        ("examples", ["Beispiele"]),
        ("feature", ["Funktionalität", "Funktion"]),
        ("given", ["* ", "Angenommen ", "Gegeben sei ", "Gegeben seien "]),
        ("rule", ["Rule", "Regel"]),
        ("scenario", ["Beispiel", "Szenario"]),
        ("scenarioOutline", ["Szenariogrundriss", "Szenarien"]),
        ("then", ["* ", "Dann "]),
        ("when", ["* ", "Wenn "]) ] }

/-- Modelled from the spec: the external dialect table `Gherkin.dialects`,
keyed by language code.  The full table has many more languages; the two
the specification names concretely suffice for every claim, and all
theorems about table lookups are stated conditionally on the lookup
result. -/
def dialects : List (String × Dialect) :=
  [("en", enDialect), ("de", deDialect)]

/-- JavaScript runtime errors observable from the translator core:
a `TypeError` from dereferencing `undefined`, or a parse error thrown by
the external Gherkin parser. -/
inductive JsError where
  | typeError
  | parseError
deriving DecidableEq

/-- A keyword-bearing node of the parsed Gherkin document, as consumed by
`translateKeywordOf`: its `keyword` string exactly as captured by the
parser (step keywords include the trailing space) and the 1-based line
number of its `location`. -/
structure Node where
  keyword : String
  line : Nat
deriving DecidableEq

/-- The `feature` root of a parsed document, carrying the declared
language code. -/
structure Feature where
  language : String
deriving DecidableEq

/-- Modelled from the spec: the document produced by the external parser —
"a tree with a root `feature` whose declared `language` field gives the
source dialect code" and descendant keyword-bearing nodes each carrying a
`keyword` and a 1-based `line`.  The tree is flattened to the list of
keyword-bearing nodes in document order, the order in which the external
walker visits them.  `feature` is optional: the parser yields a document
without a feature for inputs such as the empty string. -/
structure GherkinDocument where
  feature : Option Feature
  nodes : List Node
deriving DecidableEq

/-- The translator's configuration: the validated output dialect code and
the dialect object looked up for it at construction time. -/
structure Translator where
  outputDialectCode : String
  outputDialect : Dialect
deriving DecidableEq

/-- The language code of the default output dialect
(`GherkinTranslator.DEFAULT_DIALECT_CODE`). -/
def DEFAULT_DIALECT_CODE : String := "en"

/-- The `GherkinTranslator` constructor: validates the output dialect code
against the dialect table and throws the string `Unknown dialect: <code>`
when the lookup yields `undefined`, before any file is read or any
translation is attempted.  (The logging and dry-run flags carry no
algorithmic content and are omitted from the state.) -/
def mkGherkinTranslator (outputDialectCode : String) : Except String Translator :=
  match List.lookup outputDialectCode dialects with
  | none => .error ("Unknown dialect: " ++ outputDialectCode)
  | some d => .ok { outputDialectCode := outputDialectCode, outputDialect := d }

/-! ## Keyword translation -/

/-- Method `selectOutputKeyword`: picks `candidates[Math.min(keywordIndex,
candidates.length - 1)]` from `this.outputDialect[keywordType]`.  A missing
keyword type makes the JavaScript `candidates.length` access throw a
`TypeError`; an out-of-range index (only possible for an empty candidate
list) yields `undefined`, here `none`.  The `keyword` parameter is unused,
exactly as in the source. -/
def selectOutputKeyword (t : Translator) (_keyword keywordType : String)
    (keywordIndex : Int) : Except JsError (Option String) :=
  match List.lookup keywordType t.outputDialect.entries with
  | none => .error .typeError
  | some candidates =>
    .ok (jsGetElem candidates (min keywordIndex ((candidates.length : Int) - 1)))

/-- Method `translateKeyword`: finds the first array-valued entry of the
source dialect whose keyword list contains the keyword (`Object.entries`
iteration order), returns `null` (here `none`) if there is none, and
otherwise selects the output keyword at the keyword's index in that
list. -/
def translateKeyword (t : Translator) (keyword : String) (sourceDialect : Dialect) :
    Except JsError (Option String) :=
  match sourceDialect.entries.find? (fun e => e.2.contains keyword) with
  | none => .ok none
  | some (keywordType, alternativeKeywords) =>
    selectOutputKeyword t keyword keywordType (jsIndexOf keyword alternativeKeywords)

/-- Method `translateKeywordOf`: translates one node's keyword and replaces
its first occurrence in the node's source line (index `location.line - 1`),
splicing the rewritten line back at the same index.  A falsy translation
result (`null`, `undefined` or the empty string) leaves the lines
untouched.  An out-of-range line index would make the JavaScript
`sourceLine.replace` call throw a `TypeError` on `undefined`. -/
def translateKeywordOf (t : Translator) (node : Node) (sourceLines : List String)
    (sourceDialect : Dialect) : Except JsError (List String) :=
  match translateKeyword t node.keyword sourceDialect with
  | .error e => .error e
  | .ok none => .ok sourceLines
  | .ok (some translatedKeyword) =>
    if translatedKeyword == "" then .ok sourceLines
    else
      let lineIndex : Int := (node.line : Int) - 1
      match jsGetElem sourceLines lineIndex with
      | none => .error .typeError
      | some sourceLine =>
        .ok (sourceLines.set lineIndex.toNat (jsReplace sourceLine node.keyword translatedKeyword))

/-! ## Language comment normalization -/

/-- The anchored language-comment pattern
`/^(\s*#\s*language:\s*)(\w+)(\s*)$/` of `translateLanguageComment`,
as a deterministic parser: since `\s` and `\w` are disjoint and match
neither `#` nor the literal `language:`, the regular expression's greedy
backtracking search has exactly one possible decomposition, namely maximal
runs.  Returns the three capture groups (prefix through the whitespace
before the code, the language-code word, the trailing whitespace). -/
def matchLanguagePattern (line : String) : Option (String × String × String) :=
  let l := line.data
  let ws1 := l.takeWhile isJsSpace
  match l.dropWhile isJsSpace with
  | '#' :: r2 =>
    let ws2 := r2.takeWhile isJsSpace
    let r3 := r2.dropWhile isJsSpace
    if "language:".data.isPrefixOf r3 then
      let r4 := r3.drop "language:".data.length
      let ws3 := r4.takeWhile isJsSpace
      let r5 := r4.dropWhile isJsSpace
      let code := r5.takeWhile isJsWordChar
      let r6 := r5.dropWhile isJsWordChar
      let ws4 := r6.takeWhile isJsSpace
      if code.isEmpty then none
      else if (r6.dropWhile isJsSpace).isEmpty then
        some (⟨ws1 ++ '#' :: ws2 ++ "language:".data ++ ws3⟩, ⟨code⟩, ⟨ws4⟩)
      else none
    else none
  | _ => none

/-- Method `translateLanguageComment`: normalizes the first line of the
line array.  With no line there is nothing to do; with no pattern match a
new first line `# language: <outputCode>` is unshifted; with a match the
first line is shifted off when the output dialect is the default one, and
otherwise rewritten from the captured groups with only the language code
exchanged. -/
def translateLanguageComment (t : Translator) (sourceLines : List String) : List String :=
  match sourceLines with
  | [] => sourceLines
  | firstLine :: rest =>
    match matchLanguagePattern firstLine with
    | none => ("# language: " ++ t.outputDialectCode) :: firstLine :: rest
    | some (pre, _sourceDialectCode, suf) =>
      if t.outputDialectCode == DEFAULT_DIALECT_CODE then rest
      else (pre ++ t.outputDialectCode ++ suf) :: rest

/-! ## Document walk and top-level translation -/

/-- Modelled from the spec: `walkGherkinDocument` of the external
`@cucumber/gherkin-utils` — "for every keyword-bearing node visited by the
external walk, in document order", the handler is applied to the node and
the threaded line accumulator; a thrown error propagates. -/
def walkGherkinDocument (document : GherkinDocument) (initialLines : List String)
    (handler : Node → List String → Except JsError (List String)) :
    Except JsError (List String) :=
  document.nodes.foldlM (fun acc node => handler node acc) initialLines

/-- Method `translateGherkin`: parses the source (the external parser is
passed in as `parse`), dereferences `document.feature.language` (a
`TypeError` when the document has no feature), returns the source string
itself when the source dialect is the output dialect, and otherwise walks
the keyword-bearing nodes over the split source lines, normalizes the
language comment last, and joins.  The JavaScript comparison
`sourceDialect == this.outputDialect` is reference equality of dialect
table entries, which holds exactly when the two language codes are equal;
an unknown source language would leave `sourceDialect` undefined and the
subsequent `sourceDialect.name` access (evaluated unconditionally when
building the log message) throws a `TypeError`. -/
def translateGherkin (t : Translator) (parse : String → Except JsError GherkinDocument)
    (source : String) : Except JsError String :=
  match parse source with
  | .error e => .error e
  | .ok document =>
    match document.feature with
    | none => .error .typeError
    | some feature =>
      match List.lookup feature.language dialects with
      | none => .error .typeError
      | some sourceDialect =>
        if feature.language == t.outputDialectCode then .ok source
        else
          match walkGherkinDocument document (jsSplitNewline source)
              (fun node acc => translateKeywordOf t node acc sourceDialect) with
          | .error e => .error e
          | .ok translatedLines => .ok (joinNl (translateLanguageComment t translatedLines))

/-! ## Shared helper definitions and lemmas -/

/-- Concrete translator configured for the English output dialect, as
built by `mkGherkinTranslator "en"`. -/
def translatorEn : Translator :=
  { outputDialectCode := "en", outputDialect := enDialect }

/-- Concrete translator configured for the German output dialect, as
built by `mkGherkinTranslator "de"`. -/
def translatorDe : Translator :=
  { outputDialectCode := "de", outputDialect := deDialect }

/-- An occurrence of `pat` in `l` starting at position `p`. -/
def occursAt (l pat : List Char) (p : Nat) : Prop :=
  pat <+: l.drop p

lemma prefixOf_bool_iff {l₁ l₂ : List Char} : l₁.isPrefixOf l₂ = true ↔ l₁ <+: l₂ :=
  List.isPrefixOf_iff_prefix

lemma translateGherkin_shortcircuit (t : Translator)
    (parse : String → Except JsError GherkinDocument) (source : String)
    (document : GherkinDocument) (feature : Feature) (d : Dialect)
    (hp : parse source = .ok document) (hf : document.feature = some feature)
    (hd : List.lookup feature.language dialects = some d)
    (hl : feature.language = t.outputDialectCode) :
    translateGherkin t parse source = .ok source := by
  simp only [translateGherkin, hp, hf, hd]
  rw [hl]
  simp

/-! ## C3: no-op when the source dialect is the output dialect -/

/-- C3: for every input text whose parsed document declares a language
whose dialect equals the translator's configured output dialect (dialect
table entries are reference-equal exactly when the codes coincide),
`translateGherkin` returns the original input string itself. -/
theorem translateGherkin_noop_same_dialect (t : Translator)
    (parse : String → Except JsError GherkinDocument) (source : String)
    (document : GherkinDocument) (feature : Feature) (d : Dialect)
    (hp : parse source = .ok document) (hf : document.feature = some feature)
    (hd : List.lookup feature.language dialects = some d)
    (hl : feature.language = t.outputDialectCode) :
    translateGherkin t parse source = .ok source :=
  translateGherkin_shortcircuit t parse source document feature d hp hf hd hl

/-- Witness for C3 at the spec's concrete no-op scenario: a German file
with its own annotation translated to German comes back unchanged. -/
theorem translateGherkin_noop_same_dialect_witness :
    translateGherkin translatorDe
      (fun _ => .ok ⟨some ⟨"de"⟩, [⟨"Funktionalität", 2⟩]⟩)
      "# language: de\nFunktionalität: X\n" =
    .ok "# language: de\nFunktionalität: X\n" :=
  translateGherkin_noop_same_dialect translatorDe _ _ _ ⟨"de"⟩ deDialect rfl rfl rfl rfl

/-! ## C7: idempotence on text already in the output dialect -/

/-- C7: for a Gherkin text already in dialect `D`, applying a translator
configured for output dialect `D` twice gives the same result as applying
it once (the second application is sequenced through the error monad,
matching JavaScript exception propagation). -/
theorem translateGherkin_idempotent_same_dialect (t : Translator)
    (parse : String → Except JsError GherkinDocument) (source : String)
    (document : GherkinDocument) (feature : Feature) (d : Dialect)
    (hp : parse source = .ok document) (hf : document.feature = some feature)
    (hd : List.lookup feature.language dialects = some d)
    (hl : feature.language = t.outputDialectCode) :
    (translateGherkin t parse source >>= fun y => translateGherkin t parse y) =
    translateGherkin t parse source := by
  have h := translateGherkin_shortcircuit t parse source document feature d hp hf hd hl
  rw [h]
  exact h

/-- Witness for C7 at the spec's concrete no-op scenario. -/
theorem translateGherkin_idempotent_same_dialect_witness :
    (translateGherkin translatorDe
        (fun _ => .ok ⟨some ⟨"de"⟩, [⟨"Funktionalität", 2⟩]⟩)
        "# language: de\nFunktionalität: X\n" >>=
      fun y => translateGherkin translatorDe
        (fun _ => .ok ⟨some ⟨"de"⟩, [⟨"Funktionalität", 2⟩]⟩) y) =
    translateGherkin translatorDe
      (fun _ => .ok ⟨some ⟨"de"⟩, [⟨"Funktionalität", 2⟩]⟩)
      "# language: de\nFunktionalität: X\n" :=
  translateGherkin_idempotent_same_dialect translatorDe _ _ _ ⟨"de"⟩ deDialect rfl rfl rfl rfl

/-! ## C8: construction-time dialect validation -/

/-- C8: constructing a `GherkinTranslator` with an `outputDialectCode`
that is not a key of the dialect table throws `Unknown dialect: <code>` at
construction time; a known dialect code yields a translator configured
with that code and its dialect. -/
theorem mkGherkinTranslator_validates (code : String) :
    (List.lookup code dialects = none →
      mkGherkinTranslator code = .error ("Unknown dialect: " ++ code)) ∧
    (∀ d, List.lookup code dialects = some d →
      mkGherkinTranslator code = .ok ⟨code, d⟩) := by
  constructor
  · intro h
    simp only [mkGherkinTranslator, h]
  · intro d h
    simp only [mkGherkinTranslator, h]

/-- Witness for C8: the unknown code `xx` fails, the known code `en`
succeeds. -/
theorem mkGherkinTranslator_validates_witness :
    mkGherkinTranslator "xx" = .error "Unknown dialect: xx" ∧
    mkGherkinTranslator "en" = .ok ⟨"en", enDialect⟩ :=
  ⟨(mkGherkinTranslator_validates "xx").1 (by decide),
   (mkGherkinTranslator_validates "en").2 enDialect (by decide)⟩

/-! ## C10: featureless document dereference -/

/-- C10: when the external parser accepts an input but yields a document
with no feature node, `translateGherkin` throws a `TypeError` from
dereferencing `document.feature.language`, rather than returning the input
unchanged or raising a parse error. -/
theorem translateGherkin_featureless_typeError (t : Translator)
    (parse : String → Except JsError GherkinDocument) (source : String)
    (document : GherkinDocument)
    (hp : parse source = .ok document) (hf : document.feature = none) :
    translateGherkin t parse source = .error JsError.typeError ∧
    (∀ s, translateGherkin t parse source ≠ .ok s) ∧
    translateGherkin t parse source ≠ .error JsError.parseError := by
  have h : translateGherkin t parse source = .error JsError.typeError := by
    simp only [translateGherkin, hp, hf]
  exact ⟨h, fun s => by simp [h], by simp [h]⟩

/-- Witness for C10: the empty string parses to a featureless document
(`@cucumber/gherkin` accepts empty files), and translation then throws. -/
theorem translateGherkin_featureless_typeError_witness :
    translateGherkin translatorEn (fun _ => .ok ⟨none, []⟩) "" =
      .error JsError.typeError :=
  (translateGherkin_featureless_typeError translatorEn _ "" ⟨none, []⟩ rfl rfl).1

/-! ## C2: language-comment normalization cases -/

/-- C2: after all node keywords have been translated (last conjunct: the
non-short-circuit path of `translateGherkin` applies the normalization to
the walked lines and only then joins), exactly line 0 is normalized: with
no pattern match a new first line `# language: <outputCode>` is inserted
and the line count grows by one; with a match and output code `"en"` (the
default dialect code) line 0 is removed and the count shrinks by one; with
a match and a non-default output code only the captured language-code
token is replaced between the verbatim prefix and trailing-whitespace
captures, and the count is unchanged. -/
theorem translateLanguageComment_cases :
    (∀ (t : Translator) (l0 : String) (rest : List String),
      matchLanguagePattern l0 = none →
      translateLanguageComment t (l0 :: rest) =
        ("# language: " ++ t.outputDialectCode) :: l0 :: rest ∧
      (translateLanguageComment t (l0 :: rest)).length = (l0 :: rest).length + 1) ∧
    (∀ (t : Translator) (l0 : String) (rest : List String) (pre code suf : String),
      matchLanguagePattern l0 = some (pre, code, suf) →
      t.outputDialectCode = "en" →
      translateLanguageComment t (l0 :: rest) = rest ∧
      (l0 :: rest).length = (translateLanguageComment t (l0 :: rest)).length + 1) ∧
    (∀ (t : Translator) (l0 : String) (rest : List String) (pre code suf : String),
      matchLanguagePattern l0 = some (pre, code, suf) →
      t.outputDialectCode ≠ "en" →
      translateLanguageComment t (l0 :: rest) = (pre ++ t.outputDialectCode ++ suf) :: rest ∧
      (translateLanguageComment t (l0 :: rest)).length = (l0 :: rest).length) ∧
    (∀ (t : Translator) (parse : String → Except JsError GherkinDocument)
        (source : String) (document : GherkinDocument) (feature : Feature)
        (d : Dialect) (ls : List String),
      parse source = .ok document → document.feature = some feature →
      List.lookup feature.language dialects = some d →
      feature.language ≠ t.outputDialectCode →
      walkGherkinDocument document (jsSplitNewline source)
        (fun node acc => translateKeywordOf t node acc d) = .ok ls →
      translateGherkin t parse source = .ok (joinNl (translateLanguageComment t ls))) := by
  refine ⟨?_, ?_, ?_, ?_⟩
  · intro t l0 rest h
    simp [translateLanguageComment, h]
  · intro t l0 rest pre code suf h he
    simp [translateLanguageComment, h, DEFAULT_DIALECT_CODE, he]
  · intro t l0 rest pre code suf h he
    have hb : (t.outputDialectCode == DEFAULT_DIALECT_CODE) = false := by
      simpa [DEFAULT_DIALECT_CODE] using he
    simp [translateLanguageComment, h, hb]
  · intro t parse source document feature d ls hp hf hd hne hw
    have hb : (feature.language == t.outputDialectCode) = false := by
      simpa using hne
    simp only [translateGherkin, hp, hf, hd, hb, Bool.false_eq_true, if_false, hw]

/-- Witness for C2: insertion on an unannotated first line, removal when
translating to the default dialect, and in-place code rewrite (preserving
surrounding spacing) between two non-default dialects. -/
theorem translateLanguageComment_cases_witness :
    translateLanguageComment translatorDe ["Feature: X", "y"] =
      ["# language: de", "Feature: X", "y"] ∧
    translateLanguageComment translatorEn ["# language: de", "y"] = ["y"] ∧
    translateLanguageComment translatorDe ["  # language: en  ", "y"] =
      ["  # language: de  ", "y"] := by
  refine ⟨?_, ?_, ?_⟩
  · exact ((translateLanguageComment_cases.1 translatorDe "Feature: X" ["y"]) (by decide)).1
  · exact ((translateLanguageComment_cases.2.1 translatorEn "# language: de" ["y"]
      "# language: " "de" "" (by decide) rfl)).1
  · exact ((translateLanguageComment_cases.2.2.1 translatorDe "  # language: en  " ["y"]
      "  # language: " "en" "  " (by decide) (by decide))).1

/-! ## C5: unrecognized keywords are skipped per node -/

lemma find?_first_of {α : Type} (p : α → Bool) (pre : List α) (x : α) (post : List α)
    (hpre : ∀ e ∈ pre, p e = false) (hx : p x = true) :
    (pre ++ x :: post).find? p = some x := by
  induction pre with
  | nil => simp [List.find?, hx]
  | cons a l ih =>
    have ha := hpre a (by simp)
    simp only [List.cons_append, List.find?, ha]
    exact ih fun e he => hpre e (by simp [he])

/-- C5: a keyword contained in no keyword-type list of the source dialect
translates to `null`, the node's handler leaves the line array unchanged
and raises no error, and the walk over a document containing such a node
equals the walk over the document without it, so all other nodes are
unaffected. -/
theorem translateKeywordOf_unknown_keyword_skipped (t : Translator) (node : Node)
    (d : Dialect) (h : ∀ e ∈ d.entries, node.keyword ∉ e.2) :
    translateKeyword t node.keyword d = .ok none ∧
    (∀ sourceLines, translateKeywordOf t node sourceLines d = .ok sourceLines) ∧
    (∀ (document₁ document₂ : GherkinDocument) (nodes₁ nodes₂ : List Node)
        (initialLines : List String),
      document₁.nodes = nodes₁ ++ node :: nodes₂ →
      document₂.nodes = nodes₁ ++ nodes₂ →
      walkGherkinDocument document₁ initialLines (fun n acc => translateKeywordOf t n acc d) =
      walkGherkinDocument document₂ initialLines (fun n acc => translateKeywordOf t n acc d)) := by
  have hfind : d.entries.find? (fun e => e.2.contains node.keyword) = none :=
    List.find?_eq_none.mpr fun e he => by simpa using h e he
  have h1 : translateKeyword t node.keyword d = .ok none := by
    unfold translateKeyword
    rw [hfind]
  have h2 : ∀ sourceLines, translateKeywordOf t node sourceLines d = .ok sourceLines := by
    intro ls
    simp [translateKeywordOf, h1]
  refine ⟨h1, h2, ?_⟩
  intro document₁ document₂ nodes₁ nodes₂ initialLines hn1 hn2
  unfold walkGherkinDocument
  rw [hn1, hn2, List.foldlM_append, List.foldlM_append]
  refine congrArg (_ >>= ·) (funext fun s => ?_)
  simp only [List.foldlM_cons, h2]
  rfl

/-- Witness for C5: the keyword `Foo` occurs in no German keyword list, is
not translated, and its line stays untouched. -/
theorem translateKeywordOf_unknown_keyword_skipped_witness :
    translateKeyword translatorEn "Foo" deDialect = .ok none ∧
    translateKeywordOf translatorEn ⟨"Foo", 1⟩ ["Foo: X"] deDialect = .ok ["Foo: X"] := by
  have h := translateKeywordOf_unknown_keyword_skipped translatorEn ⟨"Foo", 1⟩ deDialect
    (by decide)
  exact ⟨h.1, h.2.1 ["Foo: X"]⟩

/-! ## C1: positional keyword selection with clamping -/

lemma jsIndexOfNat_eq (a : String) (l : List String) (i : Nat)
    (hget : l.get? i = some a) (hfirst : ∀ j < i, l.get? j ≠ some a) :
    jsIndexOfNat a l = some i := by
  induction l generalizing i with
  | nil => simp at hget
  | cons x xs ih =>
    cases i with
    | zero =>
      have hx : x = a := by simpa using hget
      simp [jsIndexOfNat, hx]
    | succ n =>
      have hx : (x == a) = false := by
        have h0 := hfirst 0 (Nat.succ_pos n)
        simp only [List.get?] at h0
        simpa using fun he => h0 (by rw [he])
      simp only [jsIndexOfNat, hx, Bool.false_eq_true, if_false]
      rw [ih n (by simpa using hget)
        (fun j hj => by simpa using hfirst (j + 1) (by omega))]
      rfl

/-- C1: for a keyword contained in some keyword-type list of the source
dialect, with `i` the index of the keyword in the first matching type's
list, `translateKeyword` selects the output dialect's list for that type
at index `min i (length - 1)` (and that index is in range). -/
theorem translateKeyword_index_clamped (t : Translator) (keyword : String) (d : Dialect)
    (pre post : List (String × List String)) (keywordType : String)
    (kws outKws : List String) (i : Nat)
    (hentries : d.entries = pre ++ (keywordType, kws) :: post)
    (hpre : ∀ e ∈ pre, keyword ∉ e.2)
    (hget : kws.get? i = some keyword)
    (hfirst : ∀ j < i, kws.get? j ≠ some keyword)
    (hout : List.lookup keywordType t.outputDialect.entries = some outKws)
    (hne : outKws ≠ []) :
    translateKeyword t keyword d = .ok (outKws.get? (min i (outKws.length - 1))) ∧
    (outKws.get? (min i (outKws.length - 1))).isSome = true := by
  have hlen : 0 < outKws.length := List.length_pos.mpr hne
  have hfind : d.entries.find? (fun e => e.2.contains keyword) = some (keywordType, kws) := by
    rw [hentries]
    refine find?_first_of _ _ _ _ (fun e he => by simpa using hpre e he) ?_
    have hmem : keyword ∈ kws := List.get?_mem hget
    simpa using hmem
  have hidx : jsIndexOf keyword kws = (i : Int) := by
    unfold jsIndexOf
    rw [jsIndexOfNat_eq keyword kws i hget hfirst]
  have hmin : min (i : Int) ((outKws.length : Int) - 1) =
      ((min i (outKws.length - 1) : Nat) : Int) := by
    omega
  constructor
  · unfold translateKeyword selectOutputKeyword
    simp only [hfind, hout, hidx]
    unfold jsGetElem
    rw [hmin, if_neg (by omega), Int.toNat_natCast]
  · have hlt : min i (outKws.length - 1) < outKws.length := by omega
    rw [List.get?_eq_get hlt]
    rfl

/-- Witness for C1: the German step keyword `Angenommen ` sits at index 1
of the `given` list, and the English `given` list is selected at
`min 1 (2 - 1) = 1`, yielding `Given `. -/
theorem translateKeyword_index_clamped_witness :
    translateKeyword translatorEn "Angenommen " deDialect =
      .ok (["* ", "Given "].get? (min 1 (["* ", "Given "].length - 1))) :=
  (translateKeyword_index_clamped translatorEn "Angenommen " deDialect
    (deDialect.entries.take 5) (deDialect.entries.drop 6) "given"
    ["* ", "Angenommen ", "Gegeben sei ", "Gegeben seien "] ["* ", "Given "] 1
    (by decide) (by decide) (by decide) (by decide) (by decide) (by decide)).1

/-! ## C4: line-local mutation -/

lemma occursAt_cons_succ (c : Char) (cs pat : List Char) (p : Nat) :
    occursAt (c :: cs) pat (p + 1) ↔ occursAt cs pat p := by
  simp [occursAt, List.drop_succ_cons]

lemma replaceFirstList_no_occur (l pat repl : List Char)
    (h : ∀ p, ¬ occursAt l pat p) : replaceFirstList l pat repl = l := by
  induction l with
  | nil =>
    have h0 := h 0
    rw [occursAt, List.drop_zero, List.prefix_nil] at h0
    simp [replaceFirstList, List.isEmpty_iff, h0]
  | cons c cs ih =>
    have h0 := h 0
    rw [occursAt, List.drop_zero] at h0
    have hb : pat.isPrefixOf (c :: cs) = false := by
      cases hx : pat.isPrefixOf (c :: cs)
      · rfl
      · exact absurd (prefixOf_bool_iff.mp hx) h0
    simp only [replaceFirstList, hb, Bool.false_eq_true, if_false, List.cons.injEq, true_and]
    exact ih fun p hp => h (p + 1) ((occursAt_cons_succ c cs pat p).mpr hp)

lemma replaceFirstList_first_occur (pat repl : List Char) :
    ∀ (l : List Char) (p : Nat), occursAt l pat p → (∀ q < p, ¬ occursAt l pat q) →
      replaceFirstList l pat repl = l.take p ++ repl ++ l.drop (p + pat.length)
  | [], p, hp, _ => by
    have hpat : pat = [] := by
      rw [occursAt, List.drop_nil, List.prefix_nil] at hp
      exact hp
    subst hpat
    simp [replaceFirstList]
  | c :: cs, 0, hp, _ => by
    rw [occursAt, List.drop_zero] at hp
    have hb : pat.isPrefixOf (c :: cs) = true := prefixOf_bool_iff.mpr hp
    simp [replaceFirstList, hb]
  | c :: cs, p + 1, hp, hmin => by
    have h0 := hmin 0 (Nat.succ_pos p)
    rw [occursAt, List.drop_zero] at h0
    have hb : pat.isPrefixOf (c :: cs) = false := by
      cases hx : pat.isPrefixOf (c :: cs)
      · rfl
      · exact absurd (prefixOf_bool_iff.mp hx) h0
    have hcs : occursAt cs pat p := (occursAt_cons_succ c cs pat p).mp hp
    have hmins : ∀ r < p, ¬ occursAt cs pat r := fun r hr hc =>
      hmin (r + 1) (by omega) ((occursAt_cons_succ c cs pat r).mpr hc)
    have hadd : p + 1 + pat.length = (p + pat.length) + 1 := by omega
    simp only [replaceFirstList, hb, Bool.false_eq_true, if_false]
    rw [replaceFirstList_first_occur pat repl cs p hcs hmins]
    rw [List.take_succ_cons, hadd, List.drop_succ_cons]
    simp

/-- C4: the per-node rewrite is line-local.  First conjunct: every
successful `translateKeywordOf` call preserves the line count and every
line other than the node's own.  Second conjunct: a node with a
translatable keyword has exactly its line replaced by the
`jsReplace`-rewritten line.  Third and fourth conjuncts: `jsReplace`
rewrites exactly the first occurrence of the source keyword, preserving
every character before and after it, and is the identity when the keyword
does not occur.  Fifth conjunct: the final language-comment step shifts
the lines after line 0 by at most one, leaving them intact. -/
theorem translateKeywordOf_line_local :
    (∀ (t : Translator) (node : Node) (lines : List String) (d : Dialect)
        (lines' : List String),
      translateKeywordOf t node lines d = .ok lines' →
      lines'.length = lines.length ∧
      ∀ j, j ≠ node.line - 1 → lines'.get? j = lines.get? j) ∧
    (∀ (t : Translator) (node : Node) (lines : List String) (d : Dialect)
        (tk line : String),
      translateKeyword t node.keyword d = .ok (some tk) → tk ≠ "" →
      jsGetElem lines ((node.line : Int) - 1) = some line →
      translateKeywordOf t node lines d =
        .ok (lines.set (node.line - 1) (jsReplace line node.keyword tk))) ∧
    (∀ (s pat repl : String) (p : Nat),
      occursAt s.data pat.data p → (∀ q < p, ¬ occursAt s.data pat.data q) →
      (jsReplace s pat repl).data =
        s.data.take p ++ repl.data ++ s.data.drop (p + pat.data.length)) ∧
    (∀ s pat repl : String,
      (∀ p, ¬ occursAt s.data pat.data p) → jsReplace s pat repl = s) ∧
    (∀ (t : Translator) (l0 : String) (rest : List String),
      translateLanguageComment t (l0 :: rest) =
          ("# language: " ++ t.outputDialectCode) :: l0 :: rest ∨
      translateLanguageComment t (l0 :: rest) = rest ∨
      ∃ nl0, translateLanguageComment t (l0 :: rest) = nl0 :: rest) := by
  refine ⟨?_, ?_, ?_, ?_, ?_⟩
  · intro t node lines d lines' h
    simp only [translateKeywordOf] at h
    split at h
    · cases h
    · cases h
      exact ⟨rfl, fun j _ => rfl⟩
    · split at h
      · cases h
        exact ⟨rfl, fun j _ => rfl⟩
      · split at h
        · cases h
        · rename_i tk htk htkne line heq
          cases h
          have hnn : ¬ ((node.line : Int) - 1 < 0) := by
            intro hlt
            rw [jsGetElem, if_pos hlt] at heq
            cases heq
          have htn : ((node.line : Int) - 1).toNat = node.line - 1 := by omega
          refine ⟨List.length_set .., fun j hj => ?_⟩
          rw [List.get?_eq_getElem?, List.get?_eq_getElem?]
          exact List.getElem?_set_ne (by omega)
  · intro t node lines d tk line htk htkne hline
    have hb : (tk == "") = false := by simpa using htkne
    have hnn : ¬ ((node.line : Int) - 1 < 0) := by
      intro hlt
      rw [jsGetElem, if_pos hlt] at hline
      cases hline
    have htn : ((node.line : Int) - 1).toNat = node.line - 1 := by omega
    simp only [translateKeywordOf, htk, hb, Bool.false_eq_true, if_false, hline, htn]
  · intro s pat repl p hp hmin
    exact replaceFirstList_first_occur pat.data repl.data s.data p hp hmin
  · intro s pat repl h
    show String.mk (replaceFirstList s.data pat.data repl.data) = s
    rw [replaceFirstList_no_occur s.data pat.data repl.data h]
  · intro t l0 rest
    simp only [translateLanguageComment]
    cases hm : matchLanguagePattern l0 with
    | none => exact Or.inl rfl
    | some g =>
      obtain ⟨pre, code, suf⟩ := g
      by_cases hc : (t.outputDialectCode == DEFAULT_DIALECT_CODE) = true
      · simp only [hc, if_true]
        exact Or.inr (Or.inl trivial)
      · simp only [Bool.not_eq_true] at hc
        simp only [hc, Bool.false_eq_true, if_false]
        exact Or.inr (Or.inr ⟨pre ++ t.outputDialectCode ++ suf, rfl⟩)

/-- Witness for C4: the German step line has exactly its first
`Angenommen ` occurrence replaced, and the other line is untouched. -/
theorem translateKeywordOf_line_local_witness :
    translateKeywordOf translatorEn ⟨"Angenommen ", 1⟩
      ["    Angenommen Z", "tail"] deDialect = .ok ["    Given Z", "tail"] := by
  have h := translateKeywordOf_line_local.2.1 translatorEn ⟨"Angenommen ", 1⟩
    ["    Angenommen Z", "tail"] deDialect "Given " "    Angenommen Z" rfl (by decide) rfl
  rw [h]
  rfl

/-! ## C9: the spec's concrete German-to-English scenario -/

/-- Modelled from the spec: the external parser resolves the source
dialect from the document's declared language field, "defaulting to `"en"`
when no annotation is present".  The scenario input
`"Funktionalität: X\n  Szenario: Y\n    Angenommen Z\n"` has no language
annotation, so its parsed document declares language `"en"`.  (The
keyword-bearing node list is irrelevant here: the dialect short circuit
fires on the declared language alone, before any node is visited.) -/
def parsedDefaultLanguageDoc : GherkinDocument :=
  { feature := some { language := "en" }, nodes := [] }

/-- Counterexample to C9 as stated: for the annotation-free input the
parsed document declares the default language `"en"`, which equals the
configured output dialect, so `translateGherkin` short-circuits and does
not return the claimed annotated English translation. -/
theorem translateGherkin_spec_example_counterexample :
    translateGherkin translatorEn (fun _ => .ok parsedDefaultLanguageDoc)
      "Funktionalität: X\n  Szenario: Y\n    Angenommen Z\n" ≠
    .ok "# language: en\nFeature: X\n  Scenario: Y\n    Given Z\n" := by
  intro h
  have heval : translateGherkin translatorEn (fun _ => .ok parsedDefaultLanguageDoc)
      "Funktionalität: X\n  Szenario: Y\n    Angenommen Z\n" =
      .ok "Funktionalität: X\n  Szenario: Y\n    Angenommen Z\n" := rfl
  rw [heval] at h
  exact absurd (Except.ok.inj h) (by decide)

/-- C9 amended: for the input text
`"Funktionalität: X\n  Szenario: Y\n    Angenommen Z\n"` (no language
annotation, hence a parsed document declaring the default language
`"en"`), a translator configured with output dialect `"en"` returns the
input text unchanged. -/
theorem translateGherkin_spec_example_amended :
    translateGherkin translatorEn (fun _ => .ok parsedDefaultLanguageDoc)
      "Funktionalität: X\n  Szenario: Y\n    Angenommen Z\n" =
    .ok "Funktionalität: X\n  Szenario: Y\n    Angenommen Z\n" := rfl

/-! ## C6: the language-annotation pattern -/

lemma mem_takeWhile_sat {α : Type} (p : α → Bool) :
    ∀ (l : List α), ∀ a ∈ l.takeWhile p, p a = true := by
  intro l
  induction l with
  | nil => simp
  | cons x xs ih =>
    intro a ha
    by_cases hx : p x = true
    · rw [List.takeWhile_cons_of_pos hx] at ha
      rcases List.mem_cons.mp ha with h | h
      · rw [h]; exact hx
      · exact ih a h
    · rw [List.takeWhile_cons_of_neg hx] at ha
      cases ha

lemma takeWhile_append_all {α : Type} {p : α → Bool} {xs : List α}
    (h : ∀ a ∈ xs, p a = true) (ys : List α) :
    (xs ++ ys).takeWhile p = xs ++ ys.takeWhile p := by
  induction xs with
  | nil => simp
  | cons x l ih =>
    have hx := h x (by simp)
    simp [List.takeWhile_cons_of_pos hx, ih fun a ha => h a (by simp [ha])]

lemma dropWhile_append_all {α : Type} {p : α → Bool} {xs : List α}
    (h : ∀ a ∈ xs, p a = true) (ys : List α) :
    (xs ++ ys).dropWhile p = ys.dropWhile p := by
  induction xs with
  | nil => simp
  | cons x l ih =>
    have hx := h x (by simp)
    simp [List.dropWhile_cons_of_pos hx, ih fun a ha => h a (by simp [ha])]

lemma takeWhile_all_eq_self {α : Type} {p : α → Bool} {xs : List α}
    (h : ∀ a ∈ xs, p a = true) : xs.takeWhile p = xs := by
  have := takeWhile_append_all h ([] : List α)
  simpa using this

lemma dropWhile_all_eq_nil {α : Type} {p : α → Bool} {xs : List α}
    (h : ∀ a ∈ xs, p a = true) : xs.dropWhile p = [] := by
  have := dropWhile_append_all h ([] : List α)
  simpa using this

lemma wordSpace_disjoint (c : Char) : ¬ (isJsWordChar c = true ∧ isJsSpace c = true) := by
  simp only [isJsWordChar, isJsSpace, Bool.or_eq_true, Bool.and_eq_true,
    decide_eq_true_eq, beq_iff_eq]
  omega

lemma not_space_of_word {c : Char} (h : isJsWordChar c = true) : isJsSpace c = false := by
  cases hs : isJsSpace c
  · rfl
  · exact absurd ⟨h, hs⟩ (wordSpace_disjoint c)

lemma not_word_of_space {c : Char} (h : isJsSpace c = true) : isJsWordChar c = false := by
  cases hw : isJsWordChar c
  · rfl
  · exact absurd ⟨hw, h⟩ (wordSpace_disjoint c)

/-- Specification-side rendition of the language-annotation grammar
`^(\s*#\s*language:\s*)(\w+)(\s*)$`: the entire line decomposes into
optional whitespace, `#`, optional whitespace, the literal `language:`,
optional whitespace, a nonempty word token, and optional trailing
whitespace, with the first capture spanning everything up to and including
the whitespace before the code, the second the code word, and the third
the trailing whitespace. -/
def languageLineSpec (line pre code suf : String) : Prop :=
  ∃ ws1 ws2 ws3 : List Char,
    (∀ c ∈ ws1, isJsSpace c = true) ∧
    (∀ c ∈ ws2, isJsSpace c = true) ∧
    (∀ c ∈ ws3, isJsSpace c = true) ∧
    code.data ≠ [] ∧
    (∀ c ∈ code.data, isJsWordChar c = true) ∧
    (∀ c ∈ suf.data, isJsSpace c = true) ∧
    pre.data = ws1 ++ '#' :: ws2 ++ "language:".data ++ ws3 ∧
    line.data = pre.data ++ code.data ++ suf.data

/-- C6: line 0 is treated as a language annotation exactly when the whole
line matches `^(\s*#\s*language:\s*)(\w+)(\s*)$`, and the captures are the
prefix, the language-code word, and the trailing whitespace. -/
theorem matchLanguagePattern_iff_spec (line pre code suf : String) :
    matchLanguagePattern line = some (pre, code, suf) ↔
    languageLineSpec line pre code suf := by
  constructor
  · intro h
    simp only [matchLanguagePattern] at h
    split at h
    · rename_i r2 heq
      split at h
      · rename_i hpref
        split at h
        · cases h
        · rename_i hcne
          split at h
          · rename_i hemp
            simp only [Option.some.injEq, Prod.mk.injEq] at h
            obtain ⟨h1, h2, h3⟩ := h
            subst h1
            subst h2
            subst h3
            refine ⟨line.data.takeWhile isJsSpace, r2.takeWhile isJsSpace,
              (((r2.dropWhile isJsSpace).drop "language:".data.length).takeWhile isJsSpace),
              mem_takeWhile_sat _ _, mem_takeWhile_sat _ _, mem_takeWhile_sat _ _,
              ?_, mem_takeWhile_sat _ _, mem_takeWhile_sat _ _, rfl, ?_⟩
            · intro hnil
              rw [show ((((r2.dropWhile isJsSpace).drop
                  "language:".data.length).dropWhile isJsSpace).takeWhile isJsWordChar) =
                  ([] : List Char) from hnil] at hcne
              simp at hcne
            · have e1 : line.data = line.data.takeWhile isJsSpace ++ '#' :: r2 := by
                conv_lhs => rw [← List.takeWhile_append_dropWhile isJsSpace line.data]
                rw [heq]
              have e2 : r2 = r2.takeWhile isJsSpace ++ r2.dropWhile isJsSpace :=
                (List.takeWhile_append_dropWhile _ _).symm
              have e3 : r2.dropWhile isJsSpace = "language:".data ++
                  (r2.dropWhile isJsSpace).drop "language:".data.length := by
                obtain ⟨t, ht⟩ := prefixOf_bool_iff.mp hpref
                conv_lhs => rw [← ht]
                rw [← ht, List.drop_left]
              have e4 : (r2.dropWhile isJsSpace).drop "language:".data.length =
                  ((r2.dropWhile isJsSpace).drop "language:".data.length).takeWhile isJsSpace ++
                  ((r2.dropWhile isJsSpace).drop "language:".data.length).dropWhile isJsSpace :=
                (List.takeWhile_append_dropWhile _ _).symm
              have e5 : (((r2.dropWhile isJsSpace).drop
                    "language:".data.length).dropWhile isJsSpace) =
                  (((r2.dropWhile isJsSpace).drop
                    "language:".data.length).dropWhile isJsSpace).takeWhile isJsWordChar ++
                  (((r2.dropWhile isJsSpace).drop
                    "language:".data.length).dropWhile isJsSpace).dropWhile isJsWordChar :=
                (List.takeWhile_append_dropWhile _ _).symm
              have e6 : ((((r2.dropWhile isJsSpace).drop
                    "language:".data.length).dropWhile isJsSpace).dropWhile isJsWordChar) =
                  ((((r2.dropWhile isJsSpace).drop
                    "language:".data.length).dropWhile isJsSpace).dropWhile
                    isJsWordChar).takeWhile isJsSpace := by
                conv_lhs => rw [← List.takeWhile_append_dropWhile isJsSpace
                  ((((r2.dropWhile isJsSpace).drop
                    "language:".data.length).dropWhile isJsSpace).dropWhile isJsWordChar)]
                rw [List.isEmpty_iff.mp hemp, List.append_nil]
              show line.data = _
              conv_lhs => rw [e1]
              conv_lhs => rw [e2]
              conv_lhs => rw [e3]
              conv_lhs => rw [e4]
              conv_lhs => rw [e5]
              conv_lhs => rw [e6]
              simp [List.append_assoc]
          · cases h
      · cases h
    · cases h
  · rintro ⟨ws1, ws2, ws3, hws1, hws2, hws3, hcne, hcw, hsuf, hpre, hline⟩
    obtain ⟨c0, ct, hcd⟩ : ∃ c0 ct, code.data = c0 :: ct := by
      cases hc : code.data with
      | nil => exact absurd hc hcne
      | cons a l => exact ⟨a, l, rfl⟩
    have hc0w : isJsWordChar c0 = true := hcw c0 (by rw [hcd]; exact List.mem_cons_self _ _)
    have hlang : "language:".data = 'l' :: "anguage:".data := rfl
    have hline' : line.data = ws1 ++ '#' ::
        (ws2 ++ ("language:".data ++ (ws3 ++ (code.data ++ suf.data)))) := by
      rw [hline, hpre]
      simp [List.append_assoc]
    have step1 : line.data.takeWhile isJsSpace = ws1 := by
      rw [hline', takeWhile_append_all hws1, List.takeWhile_cons_of_neg (by decide)]
      simp
    have step2 : line.data.dropWhile isJsSpace = '#' ::
        (ws2 ++ ("language:".data ++ (ws3 ++ (code.data ++ suf.data)))) := by
      rw [hline', dropWhile_append_all hws1, List.dropWhile_cons_of_neg (by decide)]
    have step3t : (ws2 ++ ("language:".data ++
        (ws3 ++ (code.data ++ suf.data)))).takeWhile isJsSpace = ws2 := by
      rw [takeWhile_append_all hws2]
      conv_lhs => rw [hlang, List.cons_append]
      rw [List.takeWhile_cons_of_neg (by decide)]
      simp
    have step3d : (ws2 ++ ("language:".data ++
        (ws3 ++ (code.data ++ suf.data)))).dropWhile isJsSpace =
        "language:".data ++ (ws3 ++ (code.data ++ suf.data)) := by
      rw [dropWhile_append_all hws2]
      conv_lhs => rw [hlang, List.cons_append]
      rw [List.dropWhile_cons_of_neg (by decide), ← List.cons_append, ← hlang]
    have step4 : "language:".data.isPrefixOf
        ("language:".data ++ (ws3 ++ (code.data ++ suf.data))) = true :=
      prefixOf_bool_iff.mpr ⟨_, rfl⟩
    have step5 : ("language:".data ++
        (ws3 ++ (code.data ++ suf.data))).drop "language:".data.length =
        ws3 ++ (code.data ++ suf.data) := List.drop_left _ _
    have step6t : (ws3 ++ (code.data ++ suf.data)).takeWhile isJsSpace = ws3 := by
      rw [takeWhile_append_all hws3]
      conv_lhs => rw [hcd, List.cons_append]
      rw [List.takeWhile_cons_of_neg (by simp [not_space_of_word hc0w])]
      simp
    have step6d : (ws3 ++ (code.data ++ suf.data)).dropWhile isJsSpace =
        code.data ++ suf.data := by
      rw [dropWhile_append_all hws3]
      conv_lhs => rw [hcd, List.cons_append]
      rw [List.dropWhile_cons_of_neg (by simp [not_space_of_word hc0w]),
        ← List.cons_append, ← hcd]
    have step7 : (code.data ++ suf.data).takeWhile isJsWordChar = code.data := by
      rw [takeWhile_append_all hcw]
      cases hs : suf.data with
      | nil => simp
      | cons s0 st =>
        rw [List.takeWhile_cons_of_neg
          (by simp [not_word_of_space (hsuf s0 (by rw [hs]; exact List.mem_cons_self _ _))])]
        simp
    have step8 : (code.data ++ suf.data).dropWhile isJsWordChar = suf.data := by
      rw [dropWhile_append_all hcw]
      cases hs : suf.data with
      | nil => simp
      | cons s0 st =>
        rw [List.dropWhile_cons_of_neg
          (by simp [not_word_of_space (hsuf s0 (by rw [hs]; exact List.mem_cons_self _ _))])]
    have step9 : suf.data.takeWhile isJsSpace = suf.data := takeWhile_all_eq_self hsuf
    have step10 : suf.data.dropWhile isJsSpace = [] := dropWhile_all_eq_nil hsuf
    have hlanglit : "language:".data = ['l', 'a', 'n', 'g', 'u', 'a', 'g', 'e', ':'] := rfl
    rw [hlanglit] at step3t step3d step4 step5
    rw [hlanglit] at hpre
    have hcodeEmpty : code.data.isEmpty = false := by
      rw [hcd]
      rfl
    simp only [matchLanguagePattern, step2, step1, step3t, step3d, step4, if_true,
      step5, step6t, step6d, step7, step8, step9, step10, hcodeEmpty,
      Bool.false_eq_true, if_false, List.isEmpty_nil, if_true]
    rw [← hpre]
